import Mathlib

/-!
Verification development for REViewer's diplotype-candidate generation
(app/GenotypePaths.cpp) and the k-mer path index it relies on.

The C++ source is shallowly embedded: pure C++ functions become Lean
functions on the same data, `std::map` becomes a key-sorted association
list with emplace semantics, file input becomes an `Option (List String)`
(the lines of the VCF file, `none` when the file cannot be opened), and
C++ exceptions become an `Except` error type.
-/

namespace REViewerSpec

/-! ## Data model (graphtools graph, paths, locus description) -/

/-- A sequence graph: node `i` carries sequence `nodeSeqs[i]`; `edges` is the
directed edge list.  A self-loop edge `(n, n)` marks `n` as a repeat node. -/
structure Graph where
  nodeSeqs : List String
  edges : List (Nat × Nat)
  deriving DecidableEq, Repr

def Graph.numNodes (g : Graph) : Nat := g.nodeSeqs.length

def Graph.nodeSeq (g : Graph) (n : Nat) : String := g.nodeSeqs.getD n ""

def Graph.hasEdge (g : Graph) (u v : Nat) : Bool := g.edges.contains (u, v)

/-- A walk descriptor: start offset into the first node's sequence, the ordered
node ids visited, and the end offset into the last node's sequence.  The graph
back-reference of the C++ `graphtools::Path` is a non-owning pointer to the one
locus graph and is passed separately where needed. -/
structure Path where
  startPosition : Nat
  nodeIds : List Nat
  endPosition : Nat
  deriving DecidableEq, Repr

abbrev NodeRange := Nat × Nat

abbrev NodeVector := List Nat

abbrev NodeVectors := List NodeVector

abbrev Diplotype := List Path

inductive VariantType where
  | kRepeat
  | kSmallVariant
  deriving DecidableEq, Repr

/-- One variant of the locus description: its identifier, its classification
type and the graph nodes it owns (`variantSpec.nodes()`). -/
structure VariantSpec where
  id : String
  type : VariantType
  nodes : List Nat
  deriving DecidableEq, Repr

structure LocusSpecification where
  variantSpecs : List VariantSpec
  regionGraph : Graph
  deriving DecidableEq, Repr

/-- Failures of GenotypePaths.cpp.  The first five model thrown C++
exceptions; `emptyMapDeref` marks the undefined dereference of
`genotypeNodesByNodeRange.begin()` on an empty map in
`getCandidateDiplotypes` (a locus with zero variants). -/
inductive GPError where
  | ioError
  | notFound
  | missingGenotype
  | unsupportedVariantType
  | stoiFailure
  | emptyMapDeref
  deriving DecidableEq, Repr

def exceptIsOk : Except GPError α → Bool
  | .ok _ => true
  | .error _ => false

/-! ## String utilities used by extractRepeatLengths

`boost::find_first` is substring search, `boost::split` with a single
delimiter character splits at every occurrence of that character, and
`std::stoi` parses an optional sign followed by leading decimal digits. -/

/-- Substring test: models boost::find_first(line, query). -/
def hasSubstr (query : List Char) : List Char → Bool
  | [] => query.isEmpty
  | c :: rest => query.isPrefixOf (c :: rest) || hasSubstr query rest

/-- Split at every occurrence of a delimiter character; models
boost::split with boost::is_any_of over the given delimiters. -/
def splitOnChar (delims : List Char) : List Char → List (List Char)
  | [] => [[]]
  | c :: rest =>
    let r := splitOnChar delims rest
    if c ∈ delims then [] :: r
    else (c :: r.headD []) :: r.tail

def digitsToNat (cs : List Char) : Nat :=
  cs.foldl (fun acc c => acc * 10 + (c.toNat - 48)) 0

def wsChar (c : Char) : Bool := c == ' ' || c == '\t' || c == '\n' || c == '\r'

/-- INT_MAX: stoi converts to int, a 32-bit signed integer. -/
def intMax : Int := 2147483647

/-- INT_MIN. -/
def intMin : Int := -2147483648

/-- Models std::stoi (base 10): skip leading whitespace, optional sign,
then at least one decimal digit; trailing non-digits are ignored.
`none` models the exceptions stoi throws: std::invalid_argument when no
digit is found, and std::out_of_range when the converted value does not
fit in int. -/
def stoiChars (cs₀ : List Char) : Option Int :=
  match cs₀.dropWhile wsChar with
  | '-' :: rest =>
    if (rest.takeWhile Char.isDigit).isEmpty then none
    else if intMin ≤ -(digitsToNat (rest.takeWhile Char.isDigit) : Int) then
      some (-(digitsToNat (rest.takeWhile Char.isDigit) : Int))
    else none
  | '+' :: rest =>
    if (rest.takeWhile Char.isDigit).isEmpty then none
    else if (digitsToNat (rest.takeWhile Char.isDigit) : Int) ≤ intMax then
      some ((digitsToNat (rest.takeWhile Char.isDigit) : Int))
    else none
  | cs =>
    if (cs.takeWhile Char.isDigit).isEmpty then none
    else if (digitsToNat (cs.takeWhile Char.isDigit) : Int) ≤ intMax then
      some ((digitsToNat (cs.takeWhile Char.isDigit) : Int))
    else none

/-! ## extractRepeatLengths -/

def vcfQuery (repeatId : String) : List Char := ("VARID=" ++ repeatId ++ ";").toList

/-- The genotype encoding of a VCF line: third `:`-separated field of the
last tab-separated column (`pieces[pieces.size()-1]`, then `pieces[2]`).
The out-of-range read `pieces[2]` of a column with fewer than three fields
is modelled as the empty field. -/
def genoField (line : String) : List Char :=
  (splitOnChar [':'] ((splitOnChar ['\t'] line.toList).getLastD [])).getD 2 []

def noCallChars : List Char := ['.', '/', '.']

/-- The loop pushing stoi(sizeEncoding) for every slash-separated piece;
`none` models the uncaught exception thrown by a failing stoi. -/
def stoiAll : List (List Char) → Option (List Int)
  | [] => some []
  | piece :: rest =>
    match stoiChars piece, stoiAll rest with
    | some size, some sizes => some (size :: sizes)
    | _, _ => none

/-- The loop of extractRepeatLengths over the lines of the VCF file. -/
def extractFromLines (repeatId : String) : List String → Except GPError (List Int)
  | [] => .error .notFound
  | line :: rest =>
    if hasSubstr (vcfQuery repeatId) line.toList then
      let genotypeEncoding := genoField line
      if genotypeEncoding = noCallChars then .error .missingGenotype
      else
        match stoiAll (splitOnChar ['/'] genotypeEncoding) with
        | some sizes => .ok sizes
        | none => .error .stoiFailure
    else extractFromLines repeatId rest

/-- static vector<int> extractRepeatLengths(const string&, const string&).
The VCF file is embedded as its list of lines; `none` models a file that
cannot be opened. -/
def extractRepeatLengths (vcfFile : Option (List String)) (repeatId : String) :
    Except GPError (List Int) :=
  match vcfFile with
  | some lines => extractFromLines repeatId lines
  | none => .error .ioError

/-! ## capLengths and getGenotypeNodesByNodeRange -/

/-- static vector<int> capLengths(int upperBound, const vector<int>&). -/
def capLengths (upperBound : Int) (lengths : List Int) : List Int :=
  lengths.map (fun length => if length ≤ upperBound then length else upperBound)

/-- genotypeNodes.emplace_back(repeatLen, repeatNode) for each repeat length:
each allele's NodeVector is the repeat node repeated that many times. -/
def makeGenotypeNodes (repeatNode : Nat) (repeatLens : List Int) : NodeVectors :=
  repeatLens.map (fun repeatLen => List.replicate repeatLen.toNat repeatNode)

/-- NodeId(-1): the sentinel "absent node" marker; NodeId is uint32_t, so
the comparison node != -1 compares against 4294967295. -/
def sentinelNode : Nat := 4294967295

/-- std::map emplace: insert keeping keys sorted; an existing key is left
unchanged.  Keys are NodeRange pairs under lexicographic order. -/
def mapEmplace (k : NodeRange) (v : NodeVectors) :
    List (NodeRange × NodeVectors) → List (NodeRange × NodeVectors)
  | [] => [(k, v)]
  | (k₁, v₁) :: rest =>
    if k.1 < k₁.1 ∨ (k.1 = k₁.1 ∧ k.2 < k₁.2) then (k, v) :: (k₁, v₁) :: rest
    else if k₁.1 < k.1 ∨ (k₁.1 = k.1 ∧ k₁.2 < k.2) then (k₁, v₁) :: mapEmplace k v rest
    else (k₁, v₁) :: rest

def nodeRangeOf (nodes : List Nat) : NodeRange :=
  ((nodes.filter (fun n => n ≠ sentinelNode)).foldl min sentinelNode,
   (nodes.filter (fun n => n ≠ sentinelNode)).foldl max 0)

/-- The loop of getGenotypeNodesByNodeRange over the variant specifications,
accumulating the std::map. -/
def buildNodeRangeMap (meanFragLen : Int) (vcfFile : Option (List String)) :
    List VariantSpec → List (NodeRange × NodeVectors) →
    Except GPError (List (NodeRange × NodeVectors))
  | [], acc => .ok acc
  | variantSpec :: rest, acc =>
    if variantSpec.type = VariantType.kSmallVariant then .error .unsupportedVariantType
    else
      let repeatNode := variantSpec.nodes.headD 0
      match extractRepeatLengths vcfFile variantSpec.id with
      | .error e => .error e
      | .ok repeatLens =>
        let genotypeNodes := makeGenotypeNodes repeatNode (capLengths meanFragLen repeatLens)
        buildNodeRangeMap meanFragLen vcfFile rest
          (mapEmplace (nodeRangeOf variantSpec.nodes) genotypeNodes acc)

/-- map<NodeRange, NodeVectors> getGenotypeNodesByNodeRange(int, const string&,
const LocusSpecification&). -/
def getGenotypeNodesByNodeRange (meanFragLen : Int) (vcfFile : Option (List String))
    (locusSpec : LocusSpecification) : Except GPError (List (NodeRange × NodeVectors)) :=
  buildNodeRangeMap meanFragLen vcfFile locusSpec.variantSpecs []

/-! ## Diplotype enumeration -/

/-- static optional<pair<NodeVectors, NodeId>> getVariantGenotypeNodes(...):
first map entry whose node range contains the node, together with the right
end of that range. -/
def getVariantGenotypeNodes (nodeRangeToPaths : List (NodeRange × NodeVectors))
    (node : Nat) : Option (NodeVectors × Nat) :=
  match nodeRangeToPaths with
  | [] => none
  | (nodeRange, paths) :: rest =>
    if nodeRange.1 ≤ node ∧ node ≤ nodeRange.2 then some (paths, nodeRange.2)
    else getVariantGenotypeNodes rest node

/-- static vector<NodeVectors> extendDiplotype(const vector<NodeVectors>&,
const NodeVectors&).  A one-haplotype candidate is extended by the single
allele; otherwise the front/back haplotypes are extended by the front/back
alleles in both phase assignments.  `headD`/`getLastD` model
vector::front()/back(), whose behaviour on an empty vector is undefined. -/
def extendDiplotype (genotypes : List NodeVectors) (genotypeExtension : NodeVectors) :
    List NodeVectors :=
  genotypes.flatMap fun genotype =>
    if genotype.length = 1 then
      [[genotype.headD [] ++ genotypeExtension.headD []]]
    else
      [[genotype.headD [] ++ genotypeExtension.headD [],
        genotype.getLastD [] ++ genotypeExtension.getLastD []],
       [genotype.headD [] ++ genotypeExtension.getLastD [],
        genotype.getLastD [] ++ genotypeExtension.headD []]]

/-- The while loop of getCandidateDiplotypes: walk node ids from 1 up to
numNodes, extending every candidate.  The loop variable strictly increases,
so numNodes steps of fuel always reach the exit condition on inputs whose
variant ranges lie inside the graph. -/
def walkDiplotypes (nodeRangeToPaths : List (NodeRange × NodeVectors)) (numNodes : Nat) :
    Nat → Nat → List NodeVectors → List NodeVectors
  | 0, _, nodesByDiplotype => nodesByDiplotype
  | fuel + 1, node, nodesByDiplotype =>
    if node = numNodes then nodesByDiplotype
    else
      match getVariantGenotypeNodes nodeRangeToPaths node with
      | some (paths, lastNode) =>
        walkDiplotypes nodeRangeToPaths numNodes fuel (lastNode + 1)
          (extendDiplotype nodesByDiplotype paths)
      | none =>
        walkDiplotypes nodeRangeToPaths numNodes fuel (node + 1)
          (nodesByDiplotype.map (fun genotypeNodes =>
            genotypeNodes.map (fun haplotypeNodes => haplotypeNodes ++ [node])))

/-! ## Path and diplotype ordering

Modelled from the spec: the graphtools Path comparison operators
(graphcore/Path.cpp is not part of the sources here) order paths
lexicographically over (start offset, node-id sequence, end offset);
vector<Path> then compares lexicographically element-wise, exactly
std::lexicographical_compare. -/

/-- std::lexicographical_compare over a strict Boolean comparison. -/
def lexLt (ltB : α → α → Bool) : List α → List α → Bool
  | _, [] => false
  | [], _ :: _ => true
  | a :: as, b :: bs =>
    if ltB a b then true
    else if ltB b a then false
    else lexLt ltB as bs

def natLtB (a b : Nat) : Bool := decide (a < b)

def natListLt : List Nat → List Nat → Bool := lexLt natLtB

/-- Modelled from the spec: Path::operator<, lexicographic over
(start offset, node-id sequence, end offset). -/
def pathLt (a b : Path) : Bool :=
  if a.startPosition = b.startPosition then
    if a.nodeIds = b.nodeIds then decide (a.endPosition < b.endPosition)
    else natListLt a.nodeIds b.nodeIds
  else decide (a.startPosition < b.startPosition)

/-- vector<Path>::operator< — the diplotype ordering. -/
def dipLt : Diplotype → Diplotype → Bool := lexLt pathLt

/-- Insertion step of the sort modelling std::sort over a strict weak order. -/
def insertSorted (ltB : α → α → Bool) (a : α) : List α → List α
  | [] => [a]
  | b :: bs => if ltB b a then b :: insertSorted ltB a bs else a :: b :: bs

/-- std::sort: any comparison sort agrees on a total order (elements that
compare equivalent under dipLt are equal diplotypes). -/
def sortB (ltB : α → α → Bool) (l : List α) : List α :=
  l.foldr (insertSorted ltB) []

/-- Helper of dedupAdjacent: drop elements equal to the previous kept one. -/
def dedupAux [DecidableEq α] (prev : α) : List α → List α
  | [] => []
  | b :: rest => if prev = b then dedupAux prev rest else b :: dedupAux b rest

/-- std::unique: remove adjacent equal entries, keeping the first of each run. -/
def dedupAdjacent [DecidableEq α] : List α → List α
  | [] => []
  | a :: rest => a :: dedupAux a rest

def defaultPath : Path := ⟨0, [], 0⟩

/-- iter_swap(diplotype.begin(), diplotype.end() - 1): exchange the first and
last haplotypes. -/
def swapEnds : List α → List α
  | [] => []
  | [a] => [a]
  | a :: rest => rest.getLastD a :: (rest.dropLast ++ [a])

/-- if (diplotype.front() < diplotype.back()) iter_swap(begin, end - 1):
enforce the canonical haplotype order within one diplotype. -/
def canonicalizeDiplotype (diplotype : Diplotype) : Diplotype :=
  if pathLt (diplotype.headD defaultPath) (diplotype.getLastD defaultPath) then
    swapEnds diplotype
  else diplotype

/-- Materialization, canonicalization, sort and unique of the tail of
getCandidateDiplotypes: each haplotype NodeVector becomes a full Path with
start offset 0 and end offset the right-flank sequence length. -/
def assembleDiplotypes (g : Graph) (nodeRangeToPaths : List (NodeRange × NodeVectors))
    (numAlleles : Nat) : List Diplotype :=
  let nodesByDiplotype :=
    walkDiplotypes nodeRangeToPaths g.numNodes g.numNodes 1
      [List.replicate numAlleles [0]]
  let rightFlankLength := (g.nodeSeq (g.numNodes - 1)).length
  let diplotypes := nodesByDiplotype.map (fun diplotypeNodes =>
    canonicalizeDiplotype (diplotypeNodes.map (fun haplotypeNodes =>
      (⟨0, haplotypeNodes, rightFlankLength⟩ : Path))))
  dedupAdjacent (sortB dipLt diplotypes)

/-- vector<Diplotype> getCandidateDiplotypes(int, const string&,
const LocusSpecification&). -/
def getCandidateDiplotypes (meanFragLen : Int) (vcfFile : Option (List String))
    (locusSpec : LocusSpecification) : Except GPError (List Diplotype) :=
  match getGenotypeNodesByNodeRange meanFragLen vcfFile locusSpec with
  | .error e => .error e
  | .ok nodeRangeToPaths =>
    match nodeRangeToPaths.head? with
    | none => .error .emptyMapDeref
    | some (_, firstNodeVectors) =>
      .ok (assembleDiplotypes locusSpec.regionGraph nodeRangeToPaths firstNodeVectors.length)

/-! ## Path summarization -/

/-- The per-node rendering summarizePath performs, as its own function:
node 0 is the left flank marker, the last node is the right flank marker, a
self-loop node carries a count of all its occurrences on the whole path,
any other node renders as its raw sequence. -/
def renderNode (g : Graph) (allNodeIds : List Nat) (nodeId : Nat) : String :=
  if nodeId = 0 then "(LF)"
  else if nodeId + 1 = g.numNodes then "(RF)"
  else
    "(" ++ g.nodeSeq nodeId ++ ")" ++
      (if g.hasEdge nodeId nodeId then
        "\x7b" ++ toString (allNodeIds.count nodeId) ++ "\x7d"
      else "")

/-- The loop of summarizePath with its observedNodes set (as a list); the
rendering of one node is inline, as in the C++ loop body. -/
def summarizeAux (g : Graph) (allNodeIds : List Nat) (observed : List Nat) :
    List Nat → String
  | [] => ""
  | nodeId :: rest =>
    if nodeId ∈ observed then summarizeAux g allNodeIds observed rest
    else
      (if nodeId = 0 then "(LF)"
       else if nodeId + 1 = g.numNodes then "(RF)"
       else
         "(" ++ g.nodeSeq nodeId ++ ")" ++
           (if g.hasEdge nodeId nodeId then
             "\x7b" ++ toString (allNodeIds.count nodeId) ++ "\x7d"
           else "")) ++ summarizeAux g allNodeIds (nodeId :: observed) rest

/-- static string summarizePath(const graphtools::Path&). -/
def summarizePath (g : Graph) (path : Path) : String :=
  summarizeAux g path.nodeIds [] path.nodeIds

/-- operator<<(ostream&, const Diplotype&): front haplotype summary, then
"/" and the back haplotype summary when the diplotype has two haplotypes. -/
def summarizeDiplotype (g : Graph) (diplotype : Diplotype) : String :=
  summarizePath g (diplotype.headD defaultPath) ++
    (if diplotype.length = 2 then "/" ++ summarizePath g (diplotype.getLastD defaultPath)
     else "")

/-- First-visit order of the distinct node ids of a path, relative to an
already-observed set. -/
def firstVisitsAux (observed : List Nat) : List Nat → List Nat
  | [] => []
  | n :: rest =>
    if n ∈ observed then firstVisitsAux observed rest
    else n :: firstVisitsAux (n :: observed) rest

def firstVisits (l : List Nat) : List Nat := firstVisitsAux [] l

/-! ## K-mer path index

Modelled from the spec: the KmerIndex implementation
(graphalign/KmerIndex.cpp) is not among the sources here, only its tests;
the index is modelled from the spec's semantics.  For a fixed k the index
holds every minimal walk whose concatenated node sequences, sliced by the
start and end offsets, spell exactly k bases; every visited node of a
minimal walk contributes at least one base, so such walks have at most k
nodes (node sequences are taken non-empty, as in every graph the tests
exercise). -/

def seqLen (g : Graph) (n : Nat) : Nat := (g.nodeSeq n).length

def successors (g : Graph) (u : Nat) : List Nat :=
  (List.range g.numNodes).filter (fun v => g.hasEdge u v)

/-- All edge-connected node sequences of one to `fuel` nodes starting at
`start`. -/
def walksFrom (g : Graph) : Nat → Nat → List (List Nat)
  | 0, _ => []
  | fuel + 1, start =>
    [start] :: (successors g start).flatMap
      (fun nxt => (walksFrom g fuel nxt).map (fun w => start :: w))

/-- Modelled from the spec: complete a node walk into a minimal k-base Path
starting at offset `a` into the walk's first node, when possible.  The end
offset is chosen so that exactly k bases are spelled, and minimality
requires the first and last nodes each to contribute at least one base. -/
def mkKmerPath (g : Graph) (k a : Nat) (w : List Nat) : Option Path :=
  match w with
  | [] => none
  | [n] => if 1 ≤ k ∧ a + k ≤ seqLen g n then some ⟨a, [n], a + k⟩ else none
  | _ :: _ :: _ =>
    let lastLen := seqLen g (w.getLastD 0)
    let before := (w.dropLast.map (seqLen g)).sum - a
    let e := k - before
    if 1 ≤ e ∧ e ≤ lastLen then some ⟨a, w, e⟩ else none

/-- Modelled from the spec: every minimal occurrence Path of every k-mer of
the graph. -/
def kmerOccurrencePaths (g : Graph) (k : Nat) : List Path :=
  (List.range g.numNodes).flatMap (fun s =>
    (List.range (seqLen g s)).flatMap (fun a =>
      (walksFrom g k s).filterMap (mkKmerPath g k a)))

/-- The k-mer string spelled by a path: concatenate the node sequences and
slice off the start offset and the unused tail of the last node. -/
def spellPath (g : Graph) (p : Path) : List Char :=
  let all := (p.nodeIds.map (fun n => (g.nodeSeq n).toList)).flatten
  let lastLen := seqLen g (p.nodeIds.getLastD 0)
  (all.drop p.startPosition).take (all.length - p.startPosition - (lastLen - p.endPosition))

/-- True when the directed edge u→v is traversed by the node sequence,
i.e. u is immediately followed by v somewhere in it. -/
def traversesEdgeNodes (u v : Nat) : List Nat → Bool
  | [] => false
  | [_] => false
  | a :: b :: rest => (a = u ∧ b = v : Bool) || traversesEdgeNodes u v (b :: rest)

/-- Modelled from the spec: the number of distinct k-mer strings with some
minimal occurrence Path traversing the directed edge u→v. -/
def numUniqueKmersOverlappingEdge (g : Graph) (k u v : Nat) : Nat :=
  ((((kmerOccurrencePaths g k).filter
      (fun p => traversesEdgeNodes u v p.nodeIds)).map (spellPath g)).dedup).length

/-- Modelled from the spec: the number of distinct k-mer strings with some
minimal occurrence Path visiting node n. -/
def numUniqueKmersOverlappingNode (g : Graph) (k n : Nat) : Nat :=
  ((((kmerOccurrencePaths g k).filter
      (fun p => p.nodeIds.contains n)).map (spellPath g)).dedup).length

/-! ## Concrete inputs for the worked example and the witnesses -/

/-- The worked-example graph: node 0 the left flank, node 1 a CAG repeat
with a self-loop, node 2 the right flank. -/
def graphC5 : Graph := ⟨["AAAA", "CAG", "TTTT"], [(0, 1), (1, 1), (1, 2)]⟩

def locusC5 : LocusSpecification := ⟨[⟨"STR1", .kRepeat, [1]⟩], graphC5⟩

/-- An ExpansionHunter-style VCF record calling genotype 3/4 for STR1. -/
def vcfLineC5 : String :=
  "chr1\t100\t.\tA\t<STR>\t.\tPASS\tVARID=STR1;END=200\tGT:SO:REPCN\t1/1:SPANNING:3/4"

def pathC5a : Path := ⟨0, [0, 1, 1, 1, 2], 4⟩

def pathC5b : Path := ⟨0, [0, 1, 1, 1, 1, 2], 4⟩

/-- The deletion graph of the unique-k-mer counting test:
makeDeletionGraph("AC", "GG", "ACG"). -/
def graphDel : Graph := ⟨["AC", "GG", "ACG"], [(0, 1), (1, 2), (0, 2)]⟩

/-- A locus whose first variant is a repeat and whose second is a small
variant. -/
def locusC8 : LocusSpecification :=
  ⟨[⟨"R1", .kRepeat, [1]⟩, ⟨"S1", .kSmallVariant, [2]⟩], graphC5⟩

/-- A VCF body containing a record for R1 only. -/
def vcfLinesC8 : List String :=
  ["chr1\t100\t.\tA\t<STR>\t.\tPASS\tVARID=R1;END=200\tGT:SO:REPCN\t1/1:SPANNING:2/3"]

/-! ## Order lemmas for the lexicographic comparisons -/

theorem lexLt_nil_right (ltB : α → α → Bool) (l : List α) : lexLt ltB l [] = false := by
  cases l <;> rfl

theorem lexLt_cons (ltB : α → α → Bool) (a b : α) (as bs : List α) :
    lexLt ltB (a :: as) (b :: bs) =
      (if ltB a b then true else if ltB b a then false else lexLt ltB as bs) := rfl

theorem lexLt_irrefl (ltB : α → α → Bool) (hI : ∀ a, ltB a a = false) :
    ∀ l, lexLt ltB l l = false
  | [] => rfl
  | a :: as => by
    rw [lexLt_cons, hI a, lexLt_irrefl ltB hI as]
    simp

theorem lexLt_nil_cons (ltB : α → α → Bool) (b : α) (bs : List α) :
    lexLt ltB [] (b :: bs) = true := rfl

theorem lexLt_asymm (ltB : α → α → Bool)
    (hA : ∀ a b, ltB a b = true → ltB b a = false) :
    ∀ l₁ l₂, lexLt ltB l₁ l₂ = true → lexLt ltB l₂ l₁ = false := by
  intro l₁
  induction l₁ with
  | nil =>
    intro l₂ h
    exact lexLt_nil_right ltB l₂
  | cons a as ih =>
    intro l₂ h
    cases l₂ with
    | nil => simp [lexLt_nil_right] at h
    | cons b bs =>
      rw [lexLt_cons] at h ⊢
      cases hab : ltB a b with
      | true =>
        rw [hA a b hab]
        simp
      | false =>
        rw [hab] at h
        cases hba : ltB b a with
        | true =>
          rw [hba] at h
          simp at h
        | false =>
          rw [hba] at h
          simp only [Bool.false_eq_true, if_false] at h
          simp only [Bool.false_eq_true, if_false]
          exact ih bs h

theorem lexLt_connex (ltB : α → α → Bool)
    (hC : ∀ a b, ltB a b = false → ltB b a = false → a = b) :
    ∀ l₁ l₂, lexLt ltB l₁ l₂ = false → lexLt ltB l₂ l₁ = false → l₁ = l₂ := by
  intro l₁
  induction l₁ with
  | nil =>
    intro l₂ h₁ h₂
    cases l₂ with
    | nil => rfl
    | cons b bs => simp [lexLt_nil_cons] at h₁
  | cons a as ih =>
    intro l₂ h₁ h₂
    cases l₂ with
    | nil => simp [lexLt_nil_cons] at h₂
    | cons b bs =>
      rw [lexLt_cons] at h₁ h₂
      cases hab : ltB a b with
      | true =>
        rw [hab] at h₁
        simp at h₁
      | false =>
        cases hba : ltB b a with
        | true =>
          rw [hba] at h₂
          simp at h₂
        | false =>
          rw [hab, hba] at h₁ h₂
          simp only [Bool.false_eq_true, if_false] at h₁ h₂
          rw [hC a b hab hba, ih bs h₁ h₂]

theorem lexLt_trans (ltB : α → α → Bool)
    (hT : ∀ a b c, ltB a b = true → ltB b c = true → ltB a c = true)
    (hC : ∀ a b, ltB a b = false → ltB b a = false → a = b) :
    ∀ l₁ l₂ l₃, lexLt ltB l₁ l₂ = true → lexLt ltB l₂ l₃ = true →
      lexLt ltB l₁ l₃ = true := by
  intro l₁
  induction l₁ with
  | nil =>
    intro l₂ l₃ h₁ h₂
    cases l₃ with
    | nil =>
      cases l₂ with
      | nil => exact h₂
      | cons b bs => simp [lexLt_nil_right] at h₂
    | cons c cs => exact lexLt_nil_cons ltB c cs
  | cons a as ih =>
    intro l₂ l₃ h₁ h₂
    cases l₂ with
    | nil => simp [lexLt_nil_right] at h₁
    | cons b bs =>
      cases l₃ with
      | nil => simp [lexLt_nil_right] at h₂
      | cons c cs =>
        rw [lexLt_cons] at h₁ h₂ ⊢
        cases hab : ltB a b with
        | true =>
          cases hbc : ltB b c with
          | true =>
            rw [hT a b c hab hbc]
            simp
          | false =>
            cases hcb : ltB c b with
            | true =>
              rw [hbc, hcb] at h₂
              simp at h₂
            | false =>
              have hbceq : b = c := hC b c hbc hcb
              subst hbceq
              rw [hab]
              simp
        | false =>
          cases hba : ltB b a with
          | true =>
            rw [hab, hba] at h₁
            simp at h₁
          | false =>
            have habeq : a = b := hC a b hab hba
            subst habeq
            rw [hab] at h₁
            simp only [Bool.false_eq_true, if_false] at h₁
            cases hac : ltB a c with
            | true => simp
            | false =>
              cases hca : ltB c a with
              | true =>
                rw [hac, hca] at h₂
                simp at h₂
              | false =>
                rw [hac, hca] at h₂
                simp only [Bool.false_eq_true, if_false] at h₂ ⊢
                exact ih bs cs h₁ h₂

theorem natLtB_irrefl (a : Nat) : natLtB a a = false := by simp [natLtB]

theorem natLtB_asymm (a b : Nat) (h : natLtB a b = true) : natLtB b a = false := by
  simp [natLtB] at h ⊢
  omega

theorem natLtB_trans (a b c : Nat) (h₁ : natLtB a b = true) (h₂ : natLtB b c = true) :
    natLtB a c = true := by
  simp [natLtB] at h₁ h₂ ⊢
  omega

theorem natLtB_connex (a b : Nat) (h₁ : natLtB a b = false) (h₂ : natLtB b a = false) :
    a = b := by
  simp [natLtB] at h₁ h₂
  omega

theorem natListLt_irrefl (l : List Nat) : natListLt l l = false :=
  lexLt_irrefl natLtB natLtB_irrefl l

theorem natListLt_asymm (l₁ l₂ : List Nat) (h : natListLt l₁ l₂ = true) :
    natListLt l₂ l₁ = false :=
  lexLt_asymm natLtB natLtB_asymm l₁ l₂ h

theorem natListLt_trans (l₁ l₂ l₃ : List Nat) (h₁ : natListLt l₁ l₂ = true)
    (h₂ : natListLt l₂ l₃ = true) : natListLt l₁ l₃ = true :=
  lexLt_trans natLtB natLtB_trans natLtB_connex l₁ l₂ l₃ h₁ h₂

theorem natListLt_connex (l₁ l₂ : List Nat) (h₁ : natListLt l₁ l₂ = false)
    (h₂ : natListLt l₂ l₁ = false) : l₁ = l₂ :=
  lexLt_connex natLtB natLtB_connex l₁ l₂ h₁ h₂

theorem pathLt_iff (a b : Path) : pathLt a b = true ↔
    a.startPosition < b.startPosition
    ∨ (a.startPosition = b.startPosition ∧ ¬ a.nodeIds = b.nodeIds
        ∧ natListLt a.nodeIds b.nodeIds = true)
    ∨ (a.startPosition = b.startPosition ∧ a.nodeIds = b.nodeIds
        ∧ a.endPosition < b.endPosition) := by
  unfold pathLt
  split_ifs with hs hn
  · simp [hs, hn]
  · simp [hs, hn]
  · simp [hs]

theorem pathLt_irrefl (a : Path) : pathLt a a = false := by
  simp [pathLt]

theorem pathLt_asymm (a b : Path) (h : pathLt a b = true) : pathLt b a = false := by
  rw [pathLt_iff] at h
  rw [← Bool.not_eq_true, pathLt_iff]
  rcases h with h | ⟨hs, hn, hl⟩ | ⟨hs, hn, he⟩
  · rintro (h₂ | ⟨hs₂, hn₂, hl₂⟩ | ⟨hs₂, hn₂, he₂⟩) <;> omega
  · rintro (h₂ | ⟨hs₂, hn₂, hl₂⟩ | ⟨hs₂, hn₂, he₂⟩)
    · omega
    · rw [natListLt_asymm _ _ hl] at hl₂
      simp at hl₂
    · exact hn hn₂.symm
  · rintro (h₂ | ⟨hs₂, hn₂, hl₂⟩ | ⟨hs₂, hn₂, he₂⟩)
    · omega
    · exact hn₂ hn.symm
    · omega

theorem pathLt_connex (a b : Path) (h₁ : pathLt a b = false) (h₂ : pathLt b a = false) :
    a = b := by
  have h₁' : ¬ (pathLt a b = true) := by simp [h₁]
  have h₂' : ¬ (pathLt b a = true) := by simp [h₂]
  rw [pathLt_iff] at h₁' h₂'
  by_cases hs : a.startPosition = b.startPosition
  · by_cases hn : a.nodeIds = b.nodeIds
    · have he₁ : ¬ a.endPosition < b.endPosition := fun hlt =>
        h₁' (Or.inr (Or.inr ⟨hs, hn, hlt⟩))
      have he₂ : ¬ b.endPosition < a.endPosition := fun hlt =>
        h₂' (Or.inr (Or.inr ⟨hs.symm, hn.symm, hlt⟩))
      have he : a.endPosition = b.endPosition := by omega
      cases a
      cases b
      simp_all
    · have hl₁ : ¬ natListLt a.nodeIds b.nodeIds = true := fun hl =>
        h₁' (Or.inr (Or.inl ⟨hs, hn, hl⟩))
      have hl₂ : ¬ natListLt b.nodeIds a.nodeIds = true := fun hl =>
        h₂' (Or.inr (Or.inl ⟨hs.symm, fun hq => hn hq.symm, hl⟩))
      exact absurd (natListLt_connex _ _ (by simpa using hl₁) (by simpa using hl₂)) hn
  · have hlt₁ : ¬ a.startPosition < b.startPosition := fun hlt => h₁' (Or.inl hlt)
    have hlt₂ : ¬ b.startPosition < a.startPosition := fun hlt => h₂' (Or.inl hlt)
    exact absurd (by omega : a.startPosition = b.startPosition) hs

theorem pathLt_trans (a b c : Path) (h₁ : pathLt a b = true) (h₂ : pathLt b c = true) :
    pathLt a c = true := by
  rw [pathLt_iff] at h₁ h₂ ⊢
  rcases h₁ with h₁ | ⟨hs₁, hn₁, hl₁⟩ | ⟨hs₁, hn₁, he₁⟩ <;>
    rcases h₂ with h₂ | ⟨hs₂, hn₂, hl₂⟩ | ⟨hs₂, hn₂, he₂⟩
  · exact Or.inl (by omega)
  · exact Or.inl (by omega)
  · exact Or.inl (by omega)
  · exact Or.inl (by omega)
  · refine Or.inr (Or.inl ⟨hs₁.trans hs₂, ?_, natListLt_trans _ _ _ hl₁ hl₂⟩)
    intro hac
    rw [hac] at hl₁
    rw [natListLt_asymm _ _ hl₂] at hl₁
    simp at hl₁
  · refine Or.inr (Or.inl ⟨hs₁.trans hs₂, ?_, ?_⟩)
    · rw [← hn₂]
      exact hn₁
    · rw [← hn₂]
      exact hl₁
  · exact Or.inl (by omega)
  · refine Or.inr (Or.inl ⟨hs₁.trans hs₂, ?_, ?_⟩)
    · rw [hn₁]
      exact hn₂
    · rw [hn₁]
      exact hl₂
  · exact Or.inr (Or.inr ⟨hs₁.trans hs₂, hn₁.trans hn₂, by omega⟩)


theorem dipLt_irrefl (d : Diplotype) : dipLt d d = false :=
  lexLt_irrefl pathLt pathLt_irrefl d

theorem dipLt_asymm (d₁ d₂ : Diplotype) (h : dipLt d₁ d₂ = true) : dipLt d₂ d₁ = false :=
  lexLt_asymm pathLt pathLt_asymm d₁ d₂ h

theorem dipLt_trans (d₁ d₂ d₃ : Diplotype) (h₁ : dipLt d₁ d₂ = true)
    (h₂ : dipLt d₂ d₃ = true) : dipLt d₁ d₃ = true :=
  lexLt_trans pathLt pathLt_trans pathLt_connex d₁ d₂ d₃ h₁ h₂

theorem dipLt_connex (d₁ d₂ : Diplotype) (h₁ : dipLt d₁ d₂ = false)
    (h₂ : dipLt d₂ d₁ = false) : d₁ = d₂ :=
  lexLt_connex pathLt pathLt_connex d₁ d₂ h₁ h₂

/-! ## Sort and unique lemmas -/

theorem mem_insertSorted (ltB : α → α → Bool) (a x : α) :
    ∀ l, x ∈ insertSorted ltB a l ↔ x = a ∨ x ∈ l := by
  intro l
  induction l with
  | nil => simp [insertSorted]
  | cons b bs ih =>
    by_cases h : ltB b a = true
    · simp only [insertSorted, h, if_true, List.mem_cons, ih]
      tauto
    · simp only [insertSorted, h, Bool.false_eq_true, if_false, List.mem_cons]

theorem mem_sortB (ltB : α → α → Bool) (x : α) : ∀ l, x ∈ sortB ltB l ↔ x ∈ l := by
  intro l
  induction l with
  | nil => simp [sortB]
  | cons a as ih =>
    have hrw : sortB ltB (a :: as) = insertSorted ltB a (sortB ltB as) := rfl
    rw [hrw, mem_insertSorted]
    simp [ih]

theorem chain'_insertSorted (ltB : α → α → Bool)
    (hA : ∀ a b, ltB a b = true → ltB b a = false) (a : α) :
    ∀ l, List.Chain' (fun x y => ltB y x = false) l →
      List.Chain' (fun x y => ltB y x = false) (insertSorted ltB a l) := by
  intro l
  induction l with
  | nil =>
    intro _
    simp [insertSorted]
  | cons b bs ih =>
    intro hc
    by_cases h : ltB b a = true
    · simp only [insertSorted, h, if_true]
      have hcc := ih hc.tail
      cases bs with
      | nil =>
        simp only [insertSorted]
        exact List.chain'_cons.mpr ⟨hA b a h, List.chain'_singleton a⟩
      | cons c cs =>
        simp only [insertSorted] at hcc ⊢
        by_cases h₂ : ltB c a = true
        · simp only [h₂, if_true] at hcc ⊢
          exact List.chain'_cons.mpr ⟨(List.chain'_cons.mp hc).1, hcc⟩
        · simp only [h₂, if_false] at hcc ⊢
          exact List.chain'_cons.mpr ⟨hA b a h, hcc⟩
    · simp only [insertSorted, h, if_false]
      refine List.chain'_cons.mpr ⟨?_, hc⟩
      simpa using h

theorem sortB_chain' (ltB : α → α → Bool)
    (hA : ∀ a b, ltB a b = true → ltB b a = false) :
    ∀ l, List.Chain' (fun x y => ltB y x = false) (sortB ltB l)
  | [] => List.chain'_nil
  | a :: as => chain'_insertSorted ltB hA a (sortB ltB as) (sortB_chain' ltB hA as)

theorem mem_dedupAux [DecidableEq α] (x : α) :
    ∀ l prev, x ∈ dedupAux prev l → x ∈ l := by
  intro l
  induction l with
  | nil =>
    intro prev h
    simp [dedupAux] at h
  | cons b bs ih =>
    intro prev h
    simp only [dedupAux] at h
    by_cases hpb : prev = b
    · rw [if_pos hpb] at h
      exact List.mem_cons_of_mem b (ih prev h)
    · rw [if_neg hpb] at h
      rcases List.mem_cons.mp h with h | h
      · exact List.mem_cons.mpr (Or.inl h)
      · exact List.mem_cons_of_mem b (ih b h)

theorem mem_dedupAdjacent [DecidableEq α] (x : α) (l : List α)
    (h : x ∈ dedupAdjacent l) : x ∈ l := by
  cases l with
  | nil => simp [dedupAdjacent] at h
  | cons a rest =>
    simp only [dedupAdjacent] at h
    rcases List.mem_cons.mp h with h | h
    · exact List.mem_cons.mpr (Or.inl h)
    · exact List.mem_cons_of_mem a (mem_dedupAux x rest a h)

theorem chain'_dedupAux [DecidableEq α] (ltB : α → α → Bool)
    (hC : ∀ a b, ltB a b = false → ltB b a = false → a = b) :
    ∀ l prev, List.Chain' (fun x y => ltB y x = false) (prev :: l) →
      List.Chain' (fun x y => ltB x y = true) (prev :: dedupAux prev l) := by
  intro l
  induction l with
  | nil =>
    intro prev _
    simp [dedupAux]
  | cons b bs ih =>
    intro prev h
    simp only [dedupAux]
    by_cases hpb : prev = b
    · rw [if_pos hpb]
      subst hpb
      exact ih prev (List.chain'_cons.mp h).2
    · rw [if_neg hpb]
      refine List.chain'_cons.mpr ⟨?_, ih b (List.chain'_cons.mp h).2⟩
      have hle := (List.chain'_cons.mp h).1
      cases hlt : ltB prev b with
      | true => rfl
      | false => exact absurd (hC prev b hlt hle) hpb

theorem chain'_dedupAdjacent [DecidableEq α] (ltB : α → α → Bool)
    (hC : ∀ a b, ltB a b = false → ltB b a = false → a = b)
    (l : List α) (h : List.Chain' (fun x y => ltB y x = false) l) :
    List.Chain' (fun x y => ltB x y = true) (dedupAdjacent l) := by
  cases l with
  | nil => simp [dedupAdjacent]
  | cons a rest => exact chain'_dedupAux ltB hC rest a h

theorem chain'_head_rel (ltB : α → α → Bool)
    (hT : ∀ a b c, ltB a b = true → ltB b c = true → ltB a c = true) :
    ∀ l a, List.Chain' (fun x y => ltB x y = true) (a :: l) →
      ∀ b ∈ l, ltB a b = true := by
  intro l
  induction l with
  | nil =>
    intro a _ b hb
    simp at hb
  | cons c cs ih =>
    intro a h b hb
    have h₁ := (List.chain'_cons.mp h).1
    rcases List.mem_cons.mp hb with hb | hb
    · rw [hb]
      exact h₁
    · exact hT a c b h₁ (ih c (List.chain'_cons.mp h).2 b hb)

theorem pairwise_of_chain' (ltB : α → α → Bool)
    (hT : ∀ a b c, ltB a b = true → ltB b c = true → ltB a c = true) :
    ∀ l, List.Chain' (fun x y => ltB x y = true) l →
      List.Pairwise (fun x y => ltB x y = true) l := by
  intro l
  induction l with
  | nil =>
    intro _
    exact List.Pairwise.nil
  | cons a as ih =>
    intro h
    exact List.Pairwise.cons (chain'_head_rel ltB hT as a h) (ih h.tail)

theorem nodup_of_chain' (ltB : α → α → Bool)
    (hI : ∀ a, ltB a a = false)
    (hT : ∀ a b c, ltB a b = true → ltB b c = true → ltB a c = true)
    (l : List α) (h : List.Chain' (fun x y => ltB x y = true) l) : l.Nodup := by
  refine (pairwise_of_chain' ltB hT l h).imp ?_
  intro a b hab heq
  rw [heq, hI b] at hab
  exact Bool.false_ne_true hab

/-! ## Canonicalization lemmas -/

theorem swapEnds_length (l : List α) : (swapEnds l).length = l.length := by
  cases l with
  | nil => rfl
  | cons a rest =>
    cases rest with
    | nil => rfl
    | cons c cs =>
      simp [swapEnds, List.length_dropLast]

theorem canonicalizeDiplotype_length (d : Diplotype) :
    (canonicalizeDiplotype d).length = d.length := by
  unfold canonicalizeDiplotype
  by_cases h : pathLt (d.headD defaultPath) (d.getLastD defaultPath) = true
  · rw [if_pos h]
    exact swapEnds_length d
  · rw [if_neg h]

theorem canonicalize_front_back (d : Diplotype) :
    pathLt ((canonicalizeDiplotype d).headD defaultPath)
      ((canonicalizeDiplotype d).getLastD defaultPath) = false := by
  unfold canonicalizeDiplotype
  by_cases h : pathLt (d.headD defaultPath) (d.getLastD defaultPath) = true
  · rw [if_pos h]
    cases d with
    | nil =>
      simp only [List.headD_nil, List.getLastD_nil] at h
      rw [pathLt_irrefl] at h
      exact absurd h (by simp)
    | cons a rest =>
      cases rest with
      | nil =>
        simp only [List.headD_cons, List.getLastD_cons, List.getLastD_nil] at h
        rw [pathLt_irrefl] at h
        exact absurd h (by simp)
      | cons b bs =>
        simp only [List.headD_cons, List.getLastD_cons] at h
        simp only [swapEnds, List.headD_cons]
        rw [List.getLastD_cons, List.getLastD_cons, List.getLastD_concat]
        exact pathLt_asymm _ _ h
  · rw [if_neg h]
    simpa using h

/-! ## Structure lemmas for getCandidateDiplotypes -/

theorem dedup_sort_props (l : List Diplotype) :
    List.Chain' (fun d₁ d₂ => dipLt d₂ d₁ = false) (dedupAdjacent (sortB dipLt l))
    ∧ (dedupAdjacent (sortB dipLt l)).Nodup := by
  have hle := sortB_chain' dipLt dipLt_asymm l
  have hstrict := chain'_dedupAdjacent dipLt dipLt_connex _ hle
  exact ⟨hstrict.imp (fun a b hab => dipLt_asymm a b hab),
    nodup_of_chain' dipLt dipLt_irrefl dipLt_trans _ hstrict⟩

theorem assembleDiplotypes_eq (g : Graph) (m : List (NodeRange × NodeVectors))
    (numAlleles : Nat) :
    assembleDiplotypes g m numAlleles =
      dedupAdjacent (sortB dipLt
        ((walkDiplotypes m g.numNodes g.numNodes 1
            [List.replicate numAlleles [0]]).map (fun diplotypeNodes =>
          canonicalizeDiplotype (diplotypeNodes.map (fun haplotypeNodes =>
            (⟨0, haplotypeNodes, (g.nodeSeq (g.numNodes - 1)).length⟩ : Path)))))) := rfl

theorem mem_assembleDiplotypes (g : Graph) (m : List (NodeRange × NodeVectors))
    (numAlleles : Nat) (d : Diplotype) (h : d ∈ assembleDiplotypes g m numAlleles) :
    ∃ dn ∈ walkDiplotypes m g.numNodes g.numNodes 1 [List.replicate numAlleles [0]],
      d = canonicalizeDiplotype (dn.map (fun haplotypeNodes =>
        (⟨0, haplotypeNodes, (g.nodeSeq (g.numNodes - 1)).length⟩ : Path))) := by
  rw [assembleDiplotypes_eq] at h
  have h₁ := mem_dedupAdjacent d _ h
  have h₂ := (mem_sortB dipLt d _).mp h₁
  rcases List.mem_map.mp h₂ with ⟨dn, hdn, hmap⟩
  exact ⟨dn, hdn, hmap.symm⟩

theorem getCandidateDiplotypes_ok_elim (meanFragLen : Int)
    (vcfFile : Option (List String)) (locusSpec : LocusSpecification)
    (ds : List Diplotype)
    (h : getCandidateDiplotypes meanFragLen vcfFile locusSpec = .ok ds) :
    ∃ m r vs, getGenotypeNodesByNodeRange meanFragLen vcfFile locusSpec = .ok m ∧
      m.head? = some (r, vs) ∧
      ds = assembleDiplotypes locusSpec.regionGraph m vs.length := by
  unfold getCandidateDiplotypes at h
  cases hm : getGenotypeNodesByNodeRange meanFragLen vcfFile locusSpec with
  | error e =>
    simp only [hm] at h
    exact absurd h (by simp)
  | ok m =>
    simp only [hm] at h
    cases hh : m.head? with
    | none =>
      simp only [hh] at h
      exact absurd h (by simp)
    | some rv =>
      obtain ⟨r, vs⟩ := rv
      simp only [hh, Except.ok.injEq] at h
      exact ⟨m, r, vs, rfl, hh, h.symm⟩

theorem extendDiplotype_length (A : Nat) (hA : A = 1 ∨ A = 2)
    (genotypes : List NodeVectors) (genotypeExtension : NodeVectors)
    (h : ∀ c ∈ genotypes, c.length = A) :
    ∀ d ∈ extendDiplotype genotypes genotypeExtension, d.length = A := by
  intro d hd
  rcases List.mem_flatMap.mp hd with ⟨c, hc, hdc⟩
  have hcA := h c hc
  rcases hA with hA | hA
  · rw [hA] at hcA ⊢
    simp only [hcA, if_pos, List.mem_singleton] at hdc
    rw [hdc]
    rfl
  · rw [hA] at hcA ⊢
    simp only [hcA] at hdc
    simp only [show (2 = 1) = False by simp, if_false, List.mem_cons,
      List.mem_singleton, List.not_mem_nil, or_false] at hdc
    rcases hdc with hdc | hdc <;> rw [hdc] <;> rfl

theorem walkDiplotypes_length (m : List (NodeRange × NodeVectors)) (numNodes A : Nat)
    (hA : A = 1 ∨ A = 2) :
    ∀ fuel node cands, (∀ c ∈ cands, c.length = A) →
      ∀ dn ∈ walkDiplotypes m numNodes fuel node cands, dn.length = A := by
  intro fuel
  induction fuel with
  | zero =>
    intro node cands hc dn hdn
    exact hc dn hdn
  | succ fuel ih =>
    intro node cands hc dn hdn
    simp only [walkDiplotypes] at hdn
    by_cases hn : node = numNodes
    · rw [if_pos hn] at hdn
      exact hc dn hdn
    · rw [if_neg hn] at hdn
      cases hv : getVariantGenotypeNodes m node with
      | some pr =>
        rw [hv] at hdn
        obtain ⟨paths, lastNode⟩ := pr
        exact ih (lastNode + 1) (extendDiplotype cands paths)
          (extendDiplotype_length A hA cands paths hc) dn hdn
      | none =>
        rw [hv] at hdn
        refine ih (node + 1) _ ?_ dn hdn
        intro c hcm
        rcases List.mem_map.mp hcm with ⟨c₀, hc₀, hcc⟩
        rw [← hcc, List.length_map]
        exact hc c₀ hc₀

/-! ## Lemmas about the node-range map construction -/

theorem mapEmplace_ne_nil (k : NodeRange) (v : NodeVectors) :
    ∀ l, mapEmplace k v l ≠ [] := by
  intro l
  cases l with
  | nil => simp [mapEmplace]
  | cons p rest =>
    obtain ⟨k₁, v₁⟩ := p
    simp only [mapEmplace]
    split_ifs <;> simp

theorem buildNodeRangeMap_ok_ne_nil (meanFragLen : Int) (vcfFile : Option (List String)) :
    ∀ specs acc m, buildNodeRangeMap meanFragLen vcfFile specs acc = .ok m →
      (acc ≠ [] ∨ specs ≠ []) → m ≠ [] := by
  intro specs
  induction specs with
  | nil =>
    intro acc m h hne
    simp only [buildNodeRangeMap, Except.ok.injEq] at h
    rcases hne with hacc | hspecs
    · rw [← h]
      exact hacc
    · exact absurd rfl hspecs
  | cons vs rest ih =>
    intro acc m h _
    simp only [buildNodeRangeMap] at h
    by_cases hsmall : vs.type = VariantType.kSmallVariant
    · rw [if_pos hsmall] at h
      simp at h
    · rw [if_neg hsmall] at h
      cases he : extractRepeatLengths vcfFile vs.id with
      | error e =>
        rw [he] at h
        simp at h
      | ok lens =>
        rw [he] at h
        exact ih _ m h (Or.inl (mapEmplace_ne_nil _ _ _))

theorem extractFromLines_ne_emptyDeref (repeatId : String) :
    ∀ lines, extractFromLines repeatId lines ≠ .error .emptyMapDeref := by
  intro lines
  induction lines with
  | nil => simp [extractFromLines]
  | cons line rest ih =>
    simp only [extractFromLines]
    split_ifs with h₁ h₂
    · simp
    · split <;> simp
    · exact ih

theorem extractRepeatLengths_ne_emptyDeref (vcfFile : Option (List String))
    (repeatId : String) :
    extractRepeatLengths vcfFile repeatId ≠ .error .emptyMapDeref := by
  cases vcfFile with
  | none => simp [extractRepeatLengths]
  | some lines =>
    simp only [extractRepeatLengths]
    exact extractFromLines_ne_emptyDeref repeatId lines

theorem extractRepeatLengths_error_ne (vcfFile : Option (List String))
    (repeatId : String) (e : GPError)
    (h : extractRepeatLengths vcfFile repeatId = .error e) : e ≠ .emptyMapDeref := by
  intro he
  subst he
  exact extractRepeatLengths_ne_emptyDeref vcfFile repeatId h

theorem buildNodeRangeMap_ne_emptyDeref (meanFragLen : Int)
    (vcfFile : Option (List String)) :
    ∀ specs acc, buildNodeRangeMap meanFragLen vcfFile specs acc ≠
      .error .emptyMapDeref := by
  intro specs
  induction specs with
  | nil =>
    intro acc
    simp [buildNodeRangeMap]
  | cons vs rest ih =>
    intro acc
    simp only [buildNodeRangeMap]
    split_ifs with h₁
    · simp
    · cases he : extractRepeatLengths vcfFile vs.id with
      | error e =>
        simp only [he]
        intro hcontra
        exact extractRepeatLengths_error_ne vcfFile vs.id e he (Except.error.inj hcontra)
      | ok lens =>
        simp only [he]
        exact ih _

/-! ## Claim theorems C1 to C6 -/

/-- Claim C1: extendDiplotype turns every existing candidate into exactly
the expected children — at a two-allele region the two phase assignments
(front allele to front haplotype and back allele to back haplotype, and the
swap), at a single-allele region exactly one child with the single allele
appended — and the whole extension is the concatenation of each
candidate's children. -/
theorem claimC1 (h₁ h₂ e₁ e₂ hap ext : NodeVector) (genotypes : List NodeVectors)
    (genotypeExtension : NodeVectors) :
    extendDiplotype genotypes genotypeExtension =
      genotypes.flatMap (fun genotype => extendDiplotype [genotype] genotypeExtension)
    ∧ extendDiplotype [[h₁, h₂]] [e₁, e₂] =
        [[h₁ ++ e₁, h₂ ++ e₂], [h₁ ++ e₂, h₂ ++ e₁]]
    ∧ extendDiplotype [[hap]] [ext] = [[hap ++ ext]] := by
  refine ⟨?_, ?_, ?_⟩
  · simp [extendDiplotype]
  · simp [extendDiplotype]
  · simp [extendDiplotype]

/-- Claim C2: every diplotype returned by getCandidateDiplotypes is
canonically ordered — its front haplotype is greater than or equal to its
back haplotype under the Path order, i.e. pathLt front back = false — and
a haplotype-order swap pair can only appear once: if both orders are in
the result the two haplotypes coincide.  The Path comparison itself is
modelled from the spec (graphcore/Path.cpp is not among the sources). -/
theorem claimC2 (meanFragLen : Int) (vcfFile : Option (List String))
    (locusSpec : LocusSpecification) (ds : List Diplotype)
    (h : getCandidateDiplotypes meanFragLen vcfFile locusSpec = .ok ds) :
    (∀ d ∈ ds, pathLt (d.headD defaultPath) (d.getLastD defaultPath) = false)
    ∧ (∀ p q, [p, q] ∈ ds → [q, p] ∈ ds → p = q) := by
  obtain ⟨m, r, vs, hm, hh, hds⟩ :=
    getCandidateDiplotypes_ok_elim meanFragLen vcfFile locusSpec ds h
  subst hds
  have hfb : ∀ d ∈ assembleDiplotypes locusSpec.regionGraph m vs.length,
      pathLt (d.headD defaultPath) (d.getLastD defaultPath) = false := by
    intro d hd
    obtain ⟨dn, hdn, hcan⟩ := mem_assembleDiplotypes _ _ _ d hd
    rw [hcan]
    exact canonicalize_front_back _
  refine ⟨hfb, ?_⟩
  intro p q hpq hqp
  have h₁ := hfb [p, q] hpq
  have h₂ := hfb [q, p] hqp
  simp only [List.headD_cons, List.getLastD_cons, List.getLastD_nil] at h₁ h₂
  exact pathLt_connex p q h₁ h₂

/-- Witness for C2: the worked example enumerates one diplotype, and its
front haplotype is not below its back haplotype. -/
theorem claimC2_witness :
    getCandidateDiplotypes 1000 (some [vcfLineC5]) locusC5 = .ok [[pathC5a, pathC5b]]
    ∧ pathLt ([pathC5a, pathC5b].headD defaultPath)
        ([pathC5a, pathC5b].getLastD defaultPath) = false := by
  refine ⟨by rfl, ?_⟩
  exact (claimC2 1000 (some [vcfLineC5]) locusC5 [[pathC5a, pathC5b]] (by rfl)).1
    [pathC5a, pathC5b] (by simp)

/-- Claim C4: enumeration is deterministic (two runs are definitionally the
same term in the pure embedding) and the returned list is sorted under the
diplotype ordering, with no duplicate entries. -/
theorem claimC4 (meanFragLen : Int) (vcfFile : Option (List String))
    (locusSpec : LocusSpecification) :
    getCandidateDiplotypes meanFragLen vcfFile locusSpec =
      getCandidateDiplotypes meanFragLen vcfFile locusSpec
    ∧ ∀ ds, getCandidateDiplotypes meanFragLen vcfFile locusSpec = .ok ds →
        List.Chain' (fun d₁ d₂ => dipLt d₂ d₁ = false) ds ∧ ds.Nodup := by
  refine ⟨rfl, ?_⟩
  intro ds h
  obtain ⟨m, r, vs, hm, hh, hds⟩ :=
    getCandidateDiplotypes_ok_elim meanFragLen vcfFile locusSpec ds h
  subst hds
  rw [assembleDiplotypes_eq]
  exact dedup_sort_props _

/-- Witness for C4 at the worked example. -/
theorem claimC4_witness :
    getCandidateDiplotypes 1000 (some [vcfLineC5]) locusC5 = .ok [[pathC5a, pathC5b]]
    ∧ List.Chain' (fun d₁ d₂ => dipLt d₂ d₁ = false) [[pathC5a, pathC5b]]
    ∧ [[pathC5a, pathC5b]].Nodup :=
  ⟨by rfl, (claimC4 1000 (some [vcfLineC5]) locusC5).2 [[pathC5a, pathC5b]] (by rfl)⟩

/-- Claim C3: one capped allele length produces the per-allele NodeVector
with exactly bound copies of the repeat node when the raw length exceeds
the bound, and exactly length copies otherwise. -/
theorem claimC3 (bound len : Int) (node : Nat) (hb : 0 ≤ bound) :
    (bound < len →
      makeGenotypeNodes node (capLengths bound [len]) =
        [List.replicate bound.toNat node]
      ∧ (List.replicate bound.toNat node).count node = bound.toNat
      ∧ (bound.toNat : Int) = bound)
    ∧ (0 ≤ len → len ≤ bound →
      makeGenotypeNodes node (capLengths bound [len]) =
        [List.replicate len.toNat node]
      ∧ (List.replicate len.toNat node).count node = len.toNat
      ∧ (len.toNat : Int) = len) := by
  constructor
  · intro hlt
    have hnle : ¬ (len ≤ bound) := by omega
    refine ⟨?_, ?_, ?_⟩
    · simp [makeGenotypeNodes, capLengths, hnle]
    · simp
    · omega
  · intro h0 hle
    refine ⟨?_, ?_, ?_⟩
    · simp [makeGenotypeNodes, capLengths, hle]
    · simp
    · omega

/-- Witness for C3: bound 5 with lengths 7 (capped) and 3 (unchanged). -/
theorem claimC3_witness :
    (0 : Int) ≤ 5 ∧ (5 : Int) < 7
    ∧ makeGenotypeNodes 1 (capLengths 5 [7]) = [List.replicate (5 : Int).toNat 1]
    ∧ (0 : Int) ≤ 3 ∧ (3 : Int) ≤ 5
    ∧ makeGenotypeNodes 1 (capLengths 5 [3]) = [List.replicate (3 : Int).toNat 1] :=
  ⟨by decide, by decide,
    ((claimC3 5 7 1 (by decide)).1 (by decide)).1,
    by decide, by decide,
    ((claimC3 5 3 1 (by decide)).2 (by decide) (by decide)).1⟩

/-- Claim C5: the worked example — three-node graph with a CAG self-loop
node and genotype 3/4, no cap — enumerates exactly one canonical diplotype
whose haplotypes traverse node 1 three and four times, rendered as
(LF)(CAG){3}(RF)/(LF)(CAG){4}(RF). -/
theorem claimC5 :
    getCandidateDiplotypes 1000 (some [vcfLineC5]) locusC5 = .ok [[pathC5a, pathC5b]]
    ∧ pathC5a.nodeIds.count 1 = 3
    ∧ pathC5b.nodeIds.count 1 = 4
    ∧ summarizeDiplotype graphC5 [pathC5a, pathC5b] =
        "(LF)(CAG)\x7b3\x7d(RF)/(LF)(CAG)\x7b4\x7d(RF)" := by
  refine ⟨by rfl, by rfl, by rfl, by rfl⟩

/-! ## Claim C6: summarizePath refinement -/

theorem summarizeAux_renderFold (g : Graph) (allNodeIds : List Nat) :
    ∀ l observed, summarizeAux g allNodeIds observed l =
      (firstVisitsAux observed l).foldr
        (fun nodeId acc => renderNode g allNodeIds nodeId ++ acc) "" := by
  intro l
  induction l with
  | nil =>
    intro observed
    rfl
  | cons n rest ih =>
    intro observed
    simp only [summarizeAux, firstVisitsAux]
    by_cases h : n ∈ observed
    · rw [if_pos h, if_pos h]
      exact ih observed
    · rw [if_neg h, if_neg h, List.foldr_cons, ih (n :: observed)]
      rfl

theorem mem_firstVisitsAux (x : Nat) :
    ∀ l observed, x ∈ firstVisitsAux observed l → x ∉ observed := by
  intro l
  induction l with
  | nil =>
    intro observed h
    simp [firstVisitsAux] at h
  | cons n rest ih =>
    intro observed h
    simp only [firstVisitsAux] at h
    by_cases hn : n ∈ observed
    · rw [if_pos hn] at h
      exact ih observed h
    · rw [if_neg hn] at h
      rcases List.mem_cons.mp h with h | h
      · subst h
        exact hn
      · have hno := ih (n :: observed) h
        intro hx
        exact hno (List.mem_cons_of_mem n hx)

theorem nodup_firstVisitsAux : ∀ l observed, (firstVisitsAux observed l).Nodup := by
  intro l
  induction l with
  | nil =>
    intro observed
    simp [firstVisitsAux]
  | cons n rest ih =>
    intro observed
    simp only [firstVisitsAux]
    by_cases hn : n ∈ observed
    · rw [if_pos hn]
      exact ih observed
    · rw [if_neg hn]
      refine List.nodup_cons.mpr ⟨?_, ih (n :: observed)⟩
      intro hmem
      exact (mem_firstVisitsAux n rest (n :: observed) hmem) (List.mem_cons_self n observed)

/-- Claim C6: summarizePath renders exactly the distinct node ids of the
path, once each, in order of first visit, each through renderNode — the
left/right flank markers for the first/last graph node, the sequence plus
the count of all occurrences of the node id on the whole path for a
self-loop node, and the raw sequence otherwise. -/
theorem claimC6 (g : Graph) (path : Path) :
    summarizePath g path =
      (firstVisits path.nodeIds).foldr
        (fun nodeId acc => renderNode g path.nodeIds nodeId ++ acc) ""
    ∧ (firstVisits path.nodeIds).Nodup :=
  ⟨summarizeAux_renderFold g path.nodeIds path.nodeIds [],
    nodup_firstVisitsAux path.nodeIds []⟩

/-! ## Claim C7: extractRepeatLengths failure and success conditions -/

theorem extractFromLines_find (repeatId : String) : ∀ lines,
    extractFromLines repeatId lines =
      match lines.find? (fun l => hasSubstr (vcfQuery repeatId) l.toList) with
      | none => .error .notFound
      | some line =>
        if genoField line = noCallChars then .error .missingGenotype
        else
          match stoiAll (splitOnChar ['/'] (genoField line)) with
          | some sizes => .ok sizes
          | none => .error .stoiFailure := by
  intro lines
  induction lines with
  | nil => rfl
  | cons line rest ih =>
    simp only [extractFromLines]
    by_cases h : hasSubstr (vcfQuery repeatId) line.toList = true
    · rw [if_pos h]
      simp only [List.find?_cons, h]
    · rw [if_neg h]
      have hb : hasSubstr (vcfQuery repeatId) line.toList = false := by
        simpa using h
      simp only [List.find?_cons, hb]
      exact ih

theorem splitOnChar_ne_nil (delims : List Char) : ∀ cs, splitOnChar delims cs ≠ [] := by
  intro cs
  cases cs with
  | nil => simp [splitOnChar]
  | cons c rest =>
    simp only [splitOnChar]
    by_cases h : c ∈ delims
    · rw [if_pos h]
      simp
    · rw [if_neg h]
      simp

theorem ws_not_digit (c : Char) (h : wsChar c = true) : c.isDigit = false := by
  unfold wsChar at h
  simp only [Bool.or_eq_true, beq_iff_eq] at h
  rcases h with ((h | h) | h) | h <;> subst h <;> decide

theorem digit_not_ws (c : Char) (h : c.isDigit = true) : wsChar c = false := by
  cases hw : wsChar c with
  | false => rfl
  | true =>
    rw [ws_not_digit c hw] at h
    exact absurd h (by simp)

theorem takeWhile_all (p : α → Bool) : ∀ l : List α, (∀ c ∈ l, p c = true) → l.takeWhile p = l := by
  intro l
  induction l with
  | nil => intro _; rfl
  | cons c rest ih =>
    intro h
    rw [List.takeWhile_cons, if_pos (h c (List.mem_cons_self c rest))]
    rw [ih (fun x hx => h x (List.mem_cons_of_mem c hx))]

theorem stoiChars_of_digits (cs : List Char) (hne : cs ≠ [])
    (hdig : ∀ c ∈ cs, c.isDigit = true)
    (hrange : (digitsToNat cs : Int) ≤ intMax) :
    stoiChars cs = some (digitsToNat cs : Int) := by
  unfold stoiChars
  have hdw : cs.dropWhile wsChar = cs := by
    cases cs with
    | nil => rfl
    | cons c rest =>
      rw [List.dropWhile_cons, if_neg]
      rw [digit_not_ws c (hdig c (List.mem_cons_self c rest))]
      simp
  rw [hdw]
  cases cs with
  | nil => exact absurd rfl hne
  | cons c rest =>
    have hc := hdig c (List.mem_cons_self c rest)
    have hminus : ¬ (c = '-') := by
      intro hq
      subst hq
      exact absurd hc (by decide)
    have hplus : ¬ (c = '+') := by
      intro hq
      subst hq
      exact absurd hc (by decide)
    have htake : (c :: rest).takeWhile Char.isDigit = c :: rest :=
      takeWhile_all Char.isDigit (c :: rest) hdig
    split
    · rename_i rest₁ heq
      rw [List.cons.injEq] at heq
      exact absurd heq.1 hminus
    · rename_i rest₁ heq
      rw [List.cons.injEq] at heq
      exact absurd heq.1 hplus
    · rw [htake, if_neg (by simp), if_pos hrange]

theorem stoiChars_nonneg (cs : List Char) (v : Int)
    (hhead : (cs.dropWhile wsChar).headD 'x' ≠ '-')
    (h : stoiChars cs = some v) : 0 ≤ v := by
  unfold stoiChars at h
  cases hd : cs.dropWhile wsChar with
  | nil =>
    rw [hd] at h
    simp at h
  | cons c rest =>
    rw [hd] at h hhead
    simp only [List.headD_cons] at hhead
    split at h
    · rename_i rest₁ heq
      rw [List.cons.injEq] at heq
      exact absurd heq.1 hhead
    · rename_i rest₁ heq
      rw [List.cons.injEq] at heq
      obtain ⟨hq, hrest⟩ := heq
      by_cases he : (rest₁.takeWhile Char.isDigit).isEmpty = true
      · rw [if_pos he] at h
        simp at h
      · rw [if_neg he] at h
        by_cases hr : (digitsToNat (rest₁.takeWhile Char.isDigit) : Int) ≤ intMax
        · rw [if_pos hr] at h
          simp only [Option.some.injEq] at h
          rw [← h]
          exact Int.natCast_nonneg _
        · rw [if_neg hr] at h
          simp at h
    · by_cases he : ((c :: rest).takeWhile Char.isDigit).isEmpty = true
      · rw [if_pos he] at h
        simp at h
      · rw [if_neg he] at h
        by_cases hr : (digitsToNat ((c :: rest).takeWhile Char.isDigit) : Int) ≤ intMax
        · rw [if_pos hr] at h
          simp only [Option.some.injEq] at h
          rw [← h]
          exact Int.natCast_nonneg _
        · rw [if_neg hr] at h
          simp at h

theorem stoiAll_length : ∀ ps sizes, stoiAll ps = some sizes →
    sizes.length = ps.length := by
  intro ps
  induction ps with
  | nil =>
    intro sizes h
    simp only [stoiAll, Option.some.injEq] at h
    rw [← h]
    rfl
  | cons p rest ih =>
    intro sizes h
    simp only [stoiAll] at h
    cases hp : stoiChars p with
    | none =>
      rw [hp] at h
      simp at h
    | some v =>
      rw [hp] at h
      cases hr : stoiAll rest with
      | none =>
        rw [hr] at h
        simp at h
      | some vs =>
        rw [hr] at h
        simp only [Option.some.injEq] at h
        rw [← h]
        simp [ih vs hr]

theorem stoiAll_mem : ∀ ps sizes, stoiAll ps = some sizes →
    ∀ v ∈ sizes, ∃ p ∈ ps, stoiChars p = some v := by
  intro ps
  induction ps with
  | nil =>
    intro sizes h v hv
    simp only [stoiAll, Option.some.injEq] at h
    rw [← h] at hv
    simp at hv
  | cons p rest ih =>
    intro sizes h v hv
    simp only [stoiAll] at h
    cases hp : stoiChars p with
    | none =>
      rw [hp] at h
      simp at h
    | some w =>
      rw [hp] at h
      cases hr : stoiAll rest with
      | none =>
        rw [hr] at h
        simp at h
      | some vs =>
        rw [hr] at h
        simp only [Option.some.injEq] at h
        rw [← h] at hv
        rcases List.mem_cons.mp hv with hv | hv
        · subst hv
          exact ⟨p, List.mem_cons_self p rest, hp⟩
        · rcases ih vs hr v hv with ⟨q, hq, hqv⟩
          exact ⟨q, List.mem_cons_of_mem p hq, hqv⟩

/-- Claim C7: extractRepeatLengths yields IOError exactly for an unreadable
file, NotFound when no line matches the VARID query, MissingGenotype if and
only if the first matching line's genotype field is the no-call sentinel,
and on success the integers parsed from the slash-separated third
colon-delimited field of the last tab-separated column — non-negative and
one or two of them when that field is well-formed.  A field on which stoi
throws (no digits, or a numeral outside the int range) instead surfaces
the uncaught-exception path, never a success. -/
theorem claimC7 (repeatId : String) (lines : List String) :
    extractRepeatLengths none repeatId = .error .ioError
    ∧ (lines.find? (fun l => hasSubstr (vcfQuery repeatId) l.toList) = none →
        extractRepeatLengths (some lines) repeatId = .error .notFound)
    ∧ (∀ line, lines.find? (fun l => hasSubstr (vcfQuery repeatId) l.toList) = some line →
        (extractRepeatLengths (some lines) repeatId = .error .missingGenotype ↔
          genoField line = noCallChars))
    ∧ (∀ line sizes,
        lines.find? (fun l => hasSubstr (vcfQuery repeatId) l.toList) = some line →
        genoField line ≠ noCallChars →
        stoiAll (splitOnChar ['/'] (genoField line)) = some sizes →
        extractRepeatLengths (some lines) repeatId = .ok sizes
        ∧ sizes.length = (splitOnChar ['/'] (genoField line)).length)
    ∧ (∀ line sizes,
        lines.find? (fun l => hasSubstr (vcfQuery repeatId) l.toList) = some line →
        extractRepeatLengths (some lines) repeatId = .ok sizes →
        (∀ p ∈ splitOnChar ['/'] (genoField line),
          ((p.dropWhile wsChar).headD 'x') ≠ '-') →
        (splitOnChar ['/'] (genoField line)).length ≤ 2 →
        (∀ v ∈ sizes, 0 ≤ v) ∧ (sizes.length = 1 ∨ sizes.length = 2))
    ∧ (∀ line,
        lines.find? (fun l => hasSubstr (vcfQuery repeatId) l.toList) = some line →
        genoField line ≠ noCallChars →
        stoiAll (splitOnChar ['/'] (genoField line)) = none →
        extractRepeatLengths (some lines) repeatId = .error .stoiFailure) := by
  have hrw : extractRepeatLengths (some lines) repeatId = extractFromLines repeatId lines := rfl
  refine ⟨rfl, ?_, ?_, ?_, ?_, ?_⟩
  · intro hfind
    rw [hrw, extractFromLines_find, hfind]
  · intro line hfind
    rw [hrw, extractFromLines_find]
    simp only [hfind]
    by_cases hf : genoField line = noCallChars
    · rw [if_pos hf]
      simp [hf]
    · rw [if_neg hf]
      constructor
      · intro hcontra
        cases hs : stoiAll (splitOnChar ['/'] (genoField line)) with
        | some sizes =>
          rw [hs] at hcontra
          exact absurd hcontra (by simp)
        | none =>
          rw [hs] at hcontra
          simp at hcontra
      · intro hq
        exact absurd hq hf
  · intro line sizes hfind hne hall
    refine ⟨?_, stoiAll_length _ sizes hall⟩
    rw [hrw, extractFromLines_find]
    simp only [hfind]
    rw [if_neg hne, hall]
  · intro line sizes hfind hok hheads hlen
    rw [hrw, extractFromLines_find] at hok
    simp only [hfind] at hok
    by_cases hf : genoField line = noCallChars
    · rw [if_pos hf] at hok
      exact absurd hok (by simp)
    · rw [if_neg hf] at hok
      cases hs : stoiAll (splitOnChar ['/'] (genoField line)) with
      | none =>
        rw [hs] at hok
        exact absurd hok (by simp)
      | some sizes₀ =>
        rw [hs] at hok
        simp only [Except.ok.injEq] at hok
        subst hok
        constructor
        · intro v hv
          rcases stoiAll_mem _ _ hs v hv with ⟨p, hp, hpv⟩
          exact stoiChars_nonneg p v (hheads p hp) hpv
        · have h₁ := stoiAll_length _ _ hs
          have h₂ : splitOnChar ['/'] (genoField line) ≠ [] :=
            splitOnChar_ne_nil ['/'] (genoField line)
          have h₃ : 0 < (splitOnChar ['/'] (genoField line)).length :=
            List.length_pos.mpr h₂
          omega
  · intro line hfind hne hnone
    rw [hrw, extractFromLines_find]
    simp only [hfind]
    rw [if_neg hne, hnone]

/-- Concrete VCF lines for the C7 witness. -/
def vcfNoCallLine : String := "chr1\tVARID=X;\tGT:SO:REPCN\t./.:SPANNING:./."

def vcfOkLine : String := "chr1\tVARID=X;\tGT:SO:REPCN\t1/1:SPANNING:3/4"

/-- A grammar-conforming record whose first repeat count exceeds INT_MAX,
so stoi throws std::out_of_range. -/
def vcfHugeLine : String := "chr1\tVARID=X;\tGT:SO:REPCN\t1/1:SPANNING:3000000000/4"

/-- Witness for C7: every outcome at concrete inputs — unreadable file,
no matching record, explicit no-call, a successful 3/4 parse with its
non-negativity and count bounds, and a repeat count above INT_MAX hitting
the uncaught-stoi path. -/
theorem claimC7_witness :
    extractRepeatLengths none "X" = .error .ioError
    ∧ extractRepeatLengths (some ["chr1 no match"]) "X" = .error .notFound
    ∧ extractRepeatLengths (some [vcfNoCallLine]) "X" = .error .missingGenotype
    ∧ extractRepeatLengths (some [vcfOkLine]) "X" = .ok [3, 4]
    ∧ (0 : Int) ≤ 3
    ∧ (([(3 : Int), 4]).length = 1 ∨ ([(3 : Int), 4]).length = 2)
    ∧ extractRepeatLengths (some [vcfHugeLine]) "X" = .error .stoiFailure :=
  ⟨(claimC7 "X" []).1,
   (claimC7 "X" ["chr1 no match"]).2.1 (by decide),
   ((claimC7 "X" [vcfNoCallLine]).2.2.1 vcfNoCallLine (by decide)).mpr (by decide),
   ((claimC7 "X" [vcfOkLine]).2.2.2.1 vcfOkLine [3, 4] (by decide) (by decide)
     (by decide)).1,
   ((claimC7 "X" [vcfOkLine]).2.2.2.2.1 vcfOkLine [3, 4] (by decide) (by rfl)
     (by decide) (by decide)).1 3 (by decide),
   ((claimC7 "X" [vcfOkLine]).2.2.2.2.1 vcfOkLine [3, 4] (by decide) (by rfl)
     (by decide) (by decide)).2,
   (claimC7 "X" [vcfHugeLine]).2.2.2.2.2 vcfHugeLine (by decide) (by decide)
     (by decide)⟩

/-! ## Claim C8: small variants abort region extraction -/

theorem buildNodeRangeMap_small_first (meanFragLen : Int)
    (vcfFile : Option (List String)) :
    ∀ (pre : List VariantSpec) (post : List VariantSpec) (vs : VariantSpec)
      (acc : List (NodeRange × NodeVectors)),
      vs.type = VariantType.kSmallVariant →
      (∀ v ∈ pre, v.type = VariantType.kRepeat ∧
        exceptIsOk (extractRepeatLengths vcfFile v.id) = true) →
      buildNodeRangeMap meanFragLen vcfFile (pre ++ vs :: post) acc =
        .error .unsupportedVariantType := by
  intro pre
  induction pre with
  | nil =>
    intro post vs acc hsmall _
    simp only [List.nil_append, buildNodeRangeMap, if_pos hsmall]
  | cons v pres ih =>
    intro post vs acc hsmall hpre
    have hv := hpre v (List.mem_cons_self v pres)
    simp only [List.cons_append, buildNodeRangeMap]
    have hns : ¬ (v.type = VariantType.kSmallVariant) := by
      rw [hv.1]
      simp
    rw [if_neg hns]
    cases he : extractRepeatLengths vcfFile v.id with
    | error e =>
      have hok := hv.2
      rw [he] at hok
      simp [exceptIsOk] at hok
    | ok lens =>
      simp only [he]
      exact ih post vs _ hsmall (fun w hw => hpre w (List.mem_cons_of_mem v hw))

theorem buildNodeRangeMap_small_any (meanFragLen : Int)
    (vcfFile : Option (List String)) :
    ∀ specs acc, (∃ v ∈ specs, v.type = VariantType.kSmallVariant) →
      exceptIsOk (buildNodeRangeMap meanFragLen vcfFile specs acc) = false := by
  intro specs
  induction specs with
  | nil =>
    intro acc h
    rcases h with ⟨v, hv, _⟩
    simp at hv
  | cons v rest ih =>
    intro acc h
    simp only [buildNodeRangeMap]
    by_cases hsmall : v.type = VariantType.kSmallVariant
    · rw [if_pos hsmall]
      rfl
    · rw [if_neg hsmall]
      have hrest : ∃ w ∈ rest, w.type = VariantType.kSmallVariant := by
        rcases h with ⟨w, hw, hwt⟩
        rcases List.mem_cons.mp hw with hw | hw
        · subst hw
          exact absurd hwt hsmall
        · exact ⟨w, hw, hwt⟩
      cases he : extractRepeatLengths vcfFile v.id with
      | error e =>
        simp only [he]
        rfl
      | ok lens =>
        simp only [he]
        exact ih _ hrest

theorem getCandidateDiplotypes_propagates (meanFragLen : Int)
    (vcfFile : Option (List String)) (locusSpec : LocusSpecification) (e : GPError)
    (h : getGenotypeNodesByNodeRange meanFragLen vcfFile locusSpec = .error e) :
    getCandidateDiplotypes meanFragLen vcfFile locusSpec = .error e := by
  unfold getCandidateDiplotypes
  rw [h]

/-- Counterexample to C8 as stated: this locus contains a small variant,
yet genotype region extraction fails with NotFound — the record of the
repeat variant listed before it is missing from the opened call source —
not with UnsupportedVariantType. -/
theorem claimC8_counterexample :
    (locusC8.variantSpecs.any (fun v => v.type == VariantType.kSmallVariant)) = true
    ∧ getGenotypeNodesByNodeRange 10 (some []) locusC8 = .error .notFound
    ∧ getGenotypeNodesByNodeRange 10 (some []) locusC8 ≠
        .error .unsupportedVariantType := by
  refine ⟨by decide, by rfl, ?_⟩
  intro hcontra
  have hbase : getGenotypeNodesByNodeRange 10 (some []) locusC8 = .error .notFound := by
    rfl
  rw [hbase] at hcontra
  exact absurd (Except.error.inj hcontra) (by decide)

/-- Claim C8 amended: a small variant makes region extraction fail with
UnsupportedVariantType provided every repeat variant listed before it
extracts successfully (otherwise that earlier failure surfaces first); the
failure propagates unchanged through getCandidateDiplotypes; and whenever
any small variant is present, enumeration returns an error — never a
partial diplotype list. -/
theorem claimC8_amended (meanFragLen : Int) (vcfFile : Option (List String))
    (g : Graph) (pre post : List VariantSpec) (vs : VariantSpec)
    (hsmall : vs.type = VariantType.kSmallVariant)
    (hpre : ∀ v ∈ pre, v.type = VariantType.kRepeat ∧
      exceptIsOk (extractRepeatLengths vcfFile v.id) = true) :
    getGenotypeNodesByNodeRange meanFragLen vcfFile ⟨pre ++ vs :: post, g⟩ =
      .error .unsupportedVariantType
    ∧ getCandidateDiplotypes meanFragLen vcfFile ⟨pre ++ vs :: post, g⟩ =
      .error .unsupportedVariantType
    ∧ (∀ specs : List VariantSpec,
        (∃ v ∈ specs, v.type = VariantType.kSmallVariant) →
        exceptIsOk (getCandidateDiplotypes meanFragLen vcfFile ⟨specs, g⟩) = false) := by
  have h₁ : getGenotypeNodesByNodeRange meanFragLen vcfFile ⟨pre ++ vs :: post, g⟩ =
      .error .unsupportedVariantType :=
    buildNodeRangeMap_small_first meanFragLen vcfFile pre post vs [] hsmall hpre
  refine ⟨h₁, getCandidateDiplotypes_propagates _ _ _ _ h₁, ?_⟩
  intro specs hspecs
  have h₂ := buildNodeRangeMap_small_any meanFragLen vcfFile specs [] hspecs
  unfold getCandidateDiplotypes
  cases hb : getGenotypeNodesByNodeRange meanFragLen vcfFile ⟨specs, g⟩ with
  | error e =>
    simp only [hb]
    rfl
  | ok m =>
    have hb' : buildNodeRangeMap meanFragLen vcfFile specs [] = .ok m := hb
    rw [hb'] at h₂
    simp [exceptIsOk] at h₂

/-- Witness for the amended C8: a repeat variant with a call record,
followed by a small variant. -/
theorem claimC8_witness :
    VariantSpec.type ⟨"S1", .kSmallVariant, [2]⟩ = VariantType.kSmallVariant
    ∧ ([(⟨"R1", .kRepeat, [1]⟩ : VariantSpec)].all (fun v =>
        (v.type == VariantType.kRepeat) &&
          exceptIsOk (extractRepeatLengths (some vcfLinesC8) v.id)) = true)
    ∧ getGenotypeNodesByNodeRange 10 (some vcfLinesC8)
        ⟨[⟨"R1", .kRepeat, [1]⟩] ++ ⟨"S1", .kSmallVariant, [2]⟩ :: [], graphC5⟩ =
        .error .unsupportedVariantType :=
  ⟨rfl, by decide,
    (claimC8_amended 10 (some vcfLinesC8) graphC5 [⟨"R1", .kRepeat, [1]⟩] []
      ⟨"S1", .kSmallVariant, [2]⟩ rfl (by decide)).1⟩

/-! ## Claim C9: node overlap dominates edge overlap in the k-mer index -/

theorem traversesEdgeNodes_mem (u v : Nat) :
    ∀ l, traversesEdgeNodes u v l = true → v ∈ l := by
  intro l
  induction l with
  | nil =>
    intro h
    simp [traversesEdgeNodes] at h
  | cons a rest ih =>
    intro h
    cases rest with
    | nil => simp [traversesEdgeNodes] at h
    | cons b rest₂ =>
      simp only [traversesEdgeNodes, Bool.or_eq_true, decide_eq_true_eq] at h
      rcases h with h | h
      · exact List.mem_cons_of_mem a (h.2 ▸ List.mem_cons_self b rest₂)
      · exact List.mem_cons_of_mem a (ih h)

theorem dedup_length_le_of_subset [DecidableEq β] (l₁ l₂ : List β) (h : l₁ ⊆ l₂) :
    l₁.dedup.length ≤ l₂.dedup.length := by
  rw [← List.card_toFinset, ← List.card_toFinset]
  apply Finset.card_le_card
  intro x hx
  rw [List.mem_toFinset] at hx ⊢
  exact h hx

/-- Claim C9 (spec-modelled KmerIndex): for every directed edge u→v of the
graph, the count of distinct k-mer strings with a minimal occurrence path
visiting node v is at least the count of those with a minimal occurrence
path traversing the edge u→v, because any path traversing u→v visits v. -/
theorem claimC9 (g : Graph) (k u v : Nat) (_h : (u, v) ∈ g.edges) :
    numUniqueKmersOverlappingNode g k v ≥ numUniqueKmersOverlappingEdge g k u v := by
  unfold numUniqueKmersOverlappingEdge numUniqueKmersOverlappingNode
  apply dedup_length_le_of_subset
  intro s hs
  rcases List.mem_map.mp hs with ⟨p, hp, hsp⟩
  rcases List.mem_filter.mp hp with ⟨hpp, hpe⟩
  refine List.mem_map.mpr ⟨p, List.mem_filter.mpr ⟨hpp, ?_⟩, hsp⟩
  have hv := traversesEdgeNodes_mem u v p.nodeIds hpe
  simpa using hv

/-- Witness for C9 on the deletion graph of the k-mer counting test, with
the two counts evaluated. -/
theorem claimC9_witness :
    ((0, 1) ∈ graphDel.edges)
    ∧ numUniqueKmersOverlappingEdge graphDel 3 0 1 = 2
    ∧ numUniqueKmersOverlappingNode graphDel 3 1 = 4
    ∧ numUniqueKmersOverlappingNode graphDel 3 1 ≥
        numUniqueKmersOverlappingEdge graphDel 3 0 1 :=
  ⟨by decide, by rfl, by rfl, claimC9 graphDel 3 0 1 (by decide)⟩

/-! ## Claim C10: the empty-locus precondition of getCandidateDiplotypes -/

/-- Claim C10: with zero variant specifications the allele-count read
dereferences the begin iterator of an empty map — modelled as the
emptyMapDeref failure; with at least one variant the read is well-defined
(the result is never that failure), and when the first map entry holds one
or two allele NodeVectors, every enumerated diplotype carries exactly that
many haplotypes through the whole walk. -/
theorem claimC10 (meanFragLen : Int) (vcfFile : Option (List String)) (g : Graph) :
    getCandidateDiplotypes meanFragLen vcfFile ⟨[], g⟩ = .error .emptyMapDeref
    ∧ (∀ specs : List VariantSpec, specs ≠ [] →
        getCandidateDiplotypes meanFragLen vcfFile ⟨specs, g⟩ ≠ .error .emptyMapDeref)
    ∧ (∀ locusSpec m r vs ds,
        getGenotypeNodesByNodeRange meanFragLen vcfFile locusSpec = .ok m →
        m.head? = some (r, vs) →
        (vs.length = 1 ∨ vs.length = 2) →
        getCandidateDiplotypes meanFragLen vcfFile locusSpec = .ok ds →
        ∀ d ∈ ds, d.length = vs.length) := by
  refine ⟨rfl, ?_, ?_⟩
  · intro specs hne
    unfold getCandidateDiplotypes
    cases hb : getGenotypeNodesByNodeRange meanFragLen vcfFile ⟨specs, g⟩ with
    | error e =>
      simp only [hb]
      intro hcontra
      have hb' : buildNodeRangeMap meanFragLen vcfFile specs [] = .error e := hb
      have he : e = .emptyMapDeref := Except.error.inj hcontra
      subst he
      exact buildNodeRangeMap_ne_emptyDeref meanFragLen vcfFile specs [] hb'
    | ok m =>
      simp only [hb]
      have hm : m ≠ [] := buildNodeRangeMap_ok_ne_nil meanFragLen vcfFile specs [] m hb
        (Or.inr hne)
      cases hh : m.head? with
      | none =>
        rw [List.head?_eq_none_iff] at hh
        exact absurd hh hm
      | some rv =>
        simp only [hh]
        obtain ⟨r, vs⟩ := rv
        simp
  · intro locusSpec m r vs ds hm hh hA hok d hd
    obtain ⟨m', r', vs', hm', hh', hds⟩ :=
      getCandidateDiplotypes_ok_elim meanFragLen vcfFile locusSpec ds hok
    rw [hm] at hm'
    have hmeq : m = m' := Except.ok.inj hm'
    subst hmeq
    rw [hh] at hh'
    have hvs : vs = vs' := congrArg Prod.snd (Option.some.inj hh')
    subst hds
    rw [← hvs] at hd
    obtain ⟨dn, hdn, hcan⟩ := mem_assembleDiplotypes _ _ _ d hd
    rw [hcan, canonicalizeDiplotype_length, List.length_map]
    refine walkDiplotypes_length m locusSpec.regionGraph.numNodes vs.length hA
      locusSpec.regionGraph.numNodes 1 [List.replicate vs.length [0]] ?_ dn hdn
    intro c hc
    simp only [List.mem_singleton] at hc
    rw [hc, List.length_replicate]

/-- Witness for C10: the empty locus hits the modelled undefined read, the
worked example does not, and its single diplotype has two haplotypes. -/
theorem claimC10_witness :
    getCandidateDiplotypes 1000 (some [vcfLineC5])
      (⟨[], graphC5⟩ : LocusSpecification) = .error .emptyMapDeref
    ∧ locusC5.variantSpecs ≠ []
    ∧ getCandidateDiplotypes 1000 (some [vcfLineC5]) locusC5 ≠ .error .emptyMapDeref
    ∧ ([pathC5a, pathC5b] : Diplotype).length =
        ([[1, 1, 1], [1, 1, 1, 1]] : NodeVectors).length := by
  refine ⟨(claimC10 1000 (some [vcfLineC5]) graphC5).1, by decide, ?_, ?_⟩
  · exact (claimC10 1000 (some [vcfLineC5]) graphC5).2.1 locusC5.variantSpecs (by decide)
  · exact (claimC10 1000 (some [vcfLineC5]) graphC5).2.2 locusC5
      [((1, 1), [[1, 1, 1], [1, 1, 1, 1]])] (1, 1) [[1, 1, 1], [1, 1, 1, 1]]
      [[pathC5a, pathC5b]] (by rfl) (by rfl) (Or.inr (by rfl)) (by rfl)
      [pathC5a, pathC5b] (by simp)

end REViewerSpec
